import Mathlib

/-!
Verification of the closed-queueing-network optimizer
(QueueingNetwork / MVASolver / ObjectiveFunctions / FireflyAlgorithm /
QueueingOptimizer) against its natural-language specification.

The Python sources are shallowly embedded over exact rationals (ℚ).
Floating-point numbers are idealized as rationals except where a claim is
about IEEE special values (infinities / NaN produced by numpy); for those
parts a dedicated scalar type `NpF` with numpy semantics is used.
-/

/-! ### Rational helpers -/

/-- `np.round`: round half to even (banker's rounding), as numpy does. -/
def roundHalfEven (q : ℚ) : ℤ :=
  let f := q - ⌊q⌋
  if f < 1/2 then ⌊q⌋
  else if 1/2 < f then ⌊q⌋ + 1
  else if Even ⌊q⌋ then ⌊q⌋ else ⌊q⌋ + 1

/-- Sorted insertion (ascending), used to model numpy's sort inside
`np.percentile`. -/
def insertQ (x : ℚ) : List ℚ → List ℚ
  | [] => [x]
  | y :: ys => if x ≤ y then x :: y :: ys else y :: insertQ x ys

/-- Insertion sort (ascending) over rationals. -/
def sortQ : List ℚ → List ℚ
  | [] => []
  | x :: xs => insertQ x (sortQ xs)

/-- Maximum of a list (`np.max`); 0 on the empty list (numpy raises there,
no claim touches that case). -/
def listMaxQ : List ℚ → ℚ
  | [] => 0
  | x :: xs => xs.foldl max x

/-- Transpose of a (rectangular) rational matrix given as rows. -/
def transposeQ (P : List (List ℚ)) : List (List ℚ) :=
  (List.range (P.headD []).length).map (fun j => P.map (fun row => row.getD j 0))

/-- Solve a square linear system given as augmented rows `[a₁ ... aₖ | b]`
by Gaussian elimination with partial (first-nonzero) pivoting; `fuel` bounds
the recursion by the number of unknowns.  This is the exact-arithmetic core
used to model `np.linalg.lstsq` on the (full-column-rank) normal equations. -/
def solveLin : ℕ → List (List ℚ) → List ℚ
  | 0, _ => []
  | fuel + 1, rows =>
    match rows.find? (fun row => decide (row.headD 0 ≠ 0)) with
    | none => 0 :: solveLin fuel (rows.map List.tail)
    | some piv =>
      let rest := (rows.erase piv).map (fun row =>
        let f := row.headD 0 / piv.headD 0
        (List.zipWith (fun a pa => a - f * pa) row piv).tail)
      let xs := solveLin fuel rest
      let x0 := ((piv.getLast?.getD 0) -
        (List.zipWith (fun c v => c * v) piv.tail.dropLast xs).sum) / piv.headD 0
      x0 :: xs

/-! ### QueueingNetwork (src/models/queueing_network.py) -/

/-- `QueueingNetwork._compute_visit_ratios`: build `A = vstack(Pᵀ - I, 1ᵀ)`,
`b = (0,…,0,1)`, and model `np.linalg.lstsq(A, b)` by solving the normal
equations `AᵀA x = Aᵀ b` exactly (these agree whenever `A` has full column
rank, which holds for the row-stochastic matrices exercised here); then
`e := |x| / Σ|x|` exactly as the source takes absolute values and
renormalizes. -/
def visitRatios (P : List (List ℚ)) : List ℚ :=
  let K := P.length
  let Pt := transposeQ P
  let A0 := (List.range K).map (fun i =>
    (List.range K).map (fun j =>
      (Pt.getD i []).getD j 0 - if i = j then (1 : ℚ) else 0))
  let A := A0 ++ [List.replicate K (1 : ℚ)]
  let b := (List.replicate K (0 : ℚ)) ++ [1]
  let M := (List.range K).map (fun i =>
    (List.range K).map (fun j =>
      (A.map (fun row => row.getD i 0 * row.getD j 0)).sum))
  let rhs := (List.range K).map (fun i =>
    (List.zipWith (fun (row : List ℚ) br => row.getD i 0 * br) A b).sum)
  let x := solveLin K (List.zipWith (fun row bi => row ++ [bi]) M rhs)
  let xa := x.map (fun q => |q|)
  xa.map (fun q => q / xa.sum)

/-- State of `QueueingNetwork` after construction: `K` stations, `N`
circulating customers, service rates `mu`, server counts `m`, routing
matrix `P` and derived visit ratios `e`. -/
structure QueueingNetwork where
  K : ℕ
  N : ℕ
  mu : List ℚ
  m : List ℕ
  P : List (List ℚ)
  e : List ℚ
  station_names : List String
deriving Repr, DecidableEq, Inhabited

/-- Python-level errors raised by the constructor: failed `assert`s, and the
`AttributeError` raised when `.shape` is read off a plain list. -/
inductive PyErr
  | assertionError
  | attributeError
deriving Repr, DecidableEq

/-- The `routing_matrix` argument as a dynamically-typed Python value: either
a numpy array (has `.shape`) or a plain list of lists (as produced by
`tolist()`, has no `.shape`). -/
inductive RoutingArg
  | arr (rows : List (List ℚ))
  | pylist (rows : List (List ℚ))
deriving Repr, DecidableEq

/-- `np.allclose(row_sums, 1.0)` with numpy defaults
`rtol = 1e-5`, `atol = 1e-8`: every row sum `s` satisfies
`|s - 1| ≤ atol + rtol·|1|`. -/
def rowsAllCloseOne (rows : List (List ℚ)) : Bool :=
  rows.all (fun row => |row.sum - 1| ≤ 1/100000000 + 1/100000 * 1)

/-- `QueueingNetwork.__init__`: validation asserts, default station names,
default uniform routing matrix, the `routing_matrix.shape` /
row-sum asserts, and the visit-ratio computation. -/
def QueueingNetwork.init (num_stations num_customers : ℕ)
    (service_rates : List ℚ) (num_servers : List ℕ)
    (routing_matrix : Option RoutingArg) (station_names : Option (List String)) :
    Except PyErr QueueingNetwork :=
  if ¬ 0 < num_stations then .error .assertionError
  else if ¬ 0 < num_customers then .error .assertionError
  else if ¬ service_rates.length = num_stations then .error .assertionError
  else if ¬ num_servers.length = num_stations then .error .assertionError
  else
    let namesChecked : Except PyErr (List String) :=
      match station_names with
      | none => .ok ((List.range num_stations).map
          (fun i => "Stacja " ++ toString (i + 1)))
      | some ns => if ns.length = num_stations then .ok ns
                   else .error .assertionError
    match namesChecked with
    | .error err => .error err
    | .ok names =>
      let pChecked : Except PyErr (List (List ℚ)) :=
        match routing_matrix with
        | none => .ok (List.replicate num_stations
            (List.replicate num_stations ((1 : ℚ) / num_stations)))
        | some (.pylist _) => .error .attributeError
        | some (.arr rows) =>
          if rows.length = num_stations ∧
             rows.all (fun row => row.length = num_stations) then
            if rowsAllCloseOne rows then .ok rows
            else .error .assertionError
          else .error .assertionError
      match pChecked with
      | .error err => .error err
      | .ok P =>
        .ok { K := num_stations, N := num_customers, mu := service_rates,
              m := num_servers, P := P, e := visitRatios P,
              station_names := names }

/-- Snapshot returned by `QueueingNetwork.get_configuration` (note
`routing_matrix` and the other arrays come out `tolist()`-ed, i.e. as plain
Python lists). -/
structure NetworkConfig where
  num_stations : ℕ
  num_customers : ℕ
  station_names : List String
  service_rates : List ℚ
  num_servers : List ℕ
  routing_matrix : List (List ℚ)
  visit_ratios : List ℚ
deriving Repr, DecidableEq

/-- `QueueingNetwork.get_configuration`. -/
def QueueingNetwork.get_configuration (net : QueueingNetwork) : NetworkConfig :=
  { num_stations := net.K
    num_customers := net.N
    station_names := net.station_names
    service_rates := net.mu
    num_servers := net.m
    routing_matrix := net.P
    visit_ratios := net.e }

/-! ### MVASolver (src/simulation/mva_solver.py), exact-rational model -/

/-- Metrics record returned by `MVASolver.solve`.  The three trailing
`Option` fields model dictionary keys that `solve` never writes (so they
default to `none`) but that `ObjectiveFunctions` reads with
`metrics.get(..., default)`. -/
structure Metrics where
  mean_response_time : ℚ
  mean_queue_length : ℚ
  queue_lengths : List ℚ
  response_times : List ℚ
  utilizations : List ℚ
  throughput : ℚ
  total_servers : ℕ
  station_names : List String
  response_time_samples : Option (List ℚ) := none
  total_service_rate : Option ℚ := none
  num_customers : Option ℚ := none
deriving Repr, DecidableEq

/-- One station's response time at population `n` (`KROK 1` of the solver):
`R = S·(1+Q)` for a single server, else the approximate multi-server
formula `S·(1+Q/m)` guarded by `avg_service_rate > 0`. -/
def stationResponse (mu_i : ℚ) (m_i : ℕ) (n : ℕ) (qprev : ℚ) : ℚ :=
  let service_time := 1 / mu_i
  if m_i = 1 then service_time * (1 + qprev)
  else
    let avg_service_rate := ((min n m_i : ℕ) : ℚ) * mu_i
    if 0 < avg_service_rate then service_time * (1 + qprev / (m_i : ℚ))
    else service_time

/-- `KROK 2` of the solver: system mean response time `Σᵢ e[i]·R[i]`
(the same expression also produces the final `mean_response_time`). -/
def meanRof (e R : List ℚ) : ℚ :=
  (List.zipWith (fun e_i r_i => e_i * r_i) e R).sum

/-- `KROK 3` of the solver and the final throughput: Little's-law
throughput `X = n / meanR` when `meanR > 0`, else `0`. -/
def littleX (n : ℕ) (meanR : ℚ) : ℚ :=
  if 0 < meanR then (n : ℚ) / meanR else 0

/-- One MVA population step: given `Q[n-1]` produce `(R[n], Q[n])`
(`KROK 1`–`KROK 4` of the solver loop body). -/
def mvaStep (mu : List ℚ) (m : List ℕ) (e : List ℚ) (n : ℕ)
    (Qprev : List ℚ) : List ℚ × List ℚ :=
  let R := List.zipWith (fun mu_i (p : ℕ × ℚ) => stationResponse mu_i p.1 n p.2)
    mu (m.zip Qprev)
  let X := littleX n (meanRof e R)
  (R, List.zipWith (fun e_i r_i => (X * e_i) * r_i) e R)

/-- The MVA recurrence iterated from the empty network (`Q[0] = 0`) up to
population `n`; returns `(R[n], Q[n])`. -/
def mvaLoop (K : ℕ) (mu : List ℚ) (m : List ℕ) (e : List ℚ) :
    ℕ → List ℚ × List ℚ
  | 0 => (List.replicate K 0, List.replicate K 0)
  | n + 1 => mvaStep mu m e (n + 1) (mvaLoop K mu m e n).2

/-- `MVASolver.solve`: run the MVA recurrence to the full population and
assemble the metrics record. -/
def MVASolver.solve (net : QueueingNetwork) : Metrics :=
  let final := mvaLoop net.K net.mu net.m net.e net.N
  let mean_response_time := meanRof net.e final.1
  let throughput := littleX net.N mean_response_time
  let utilizations := List.zipWith
    (fun (p : ℕ × ℚ) e_i =>
      let X_i := throughput * e_i
      let max_rate := (p.1 : ℚ) * p.2
      if 0 < max_rate then min (X_i / max_rate) 1 else 0)
    (net.m.zip net.mu) net.e
  { mean_response_time := mean_response_time
    mean_queue_length := final.2.sum
    queue_lengths := final.2
    response_times := final.1
    utilizations := utilizations
    throughput := throughput
    total_servers := net.m.sum
    station_names := net.station_names }

/-- The concrete 1-station network of the end-to-end scenario
(`K=1`, `N=10`, `mu=2.0`, `m=[1]`), built through the constructor. -/
def net1 : QueueingNetwork :=
  ((QueueingNetwork.init 1 10 [2] [1] none none).toOption).getD default

/-- Closed-form single-station MVA recurrence exactly as the spec states it
for the `K=1, mu=2.0, m=1` scenario: `S = 0.5`, `Q[0] = 0`, and for
`n ≥ 1`: `R[n] = S·(1+Q[n-1])`, `X[n] = n/R[n]`, `Q[n] = X[n]·R[n]`.
Result triple is `(R n, X n, Q n)`. -/
def specRecurrence : ℕ → ℚ × ℚ × ℚ
  | 0 => (0, 0, 0)
  | n + 1 =>
    let Qp := (specRecurrence n).2.2
    let R := (1/2) * (1 + Qp)
    let X := ((n + 1 : ℕ) : ℚ) / R
    (R, X, X * R)

/-- `ObjectiveFunctions.mean_queue_length` (identity on the metrics field). -/
def ObjectiveFunctions.mean_queue_length (metrics : Metrics) : ℚ :=
  metrics.mean_queue_length

/-- `ObjectiveFunctions.mean_response_time` (identity on the metrics field). -/
def ObjectiveFunctions.mean_response_time (metrics : Metrics) : ℚ :=
  metrics.mean_response_time

/-! ### ObjectiveFunctions.profit and response_time_percentile
(src/models/objective_functions.py) -/

/-- Cost parameters `{r, C_s, C_N}` for the profit objective. -/
structure CostParams where
  r : ℚ
  C_s : ℚ
  C_N : ℚ
deriving Repr, DecidableEq

/-- `ObjectiveFunctions.profit`: reads `throughput` from the metrics record
and, via `metrics.get(..., 0)`, the keys `total_service_rate` and
`num_customers` (defaulting to 0 when the record does not carry them);
returns the negated profit.  `cost_params = None` falls back to the default
`{r: 10.0, C_s: 1.0, C_N: 0.5}`. -/
def ObjectiveFunctions.profit (metrics : Metrics)
    (cost_params : Option CostParams) : ℚ :=
  let cp := cost_params.getD ⟨10, 1, 1/2⟩
  let X := metrics.throughput
  let total_mu := metrics.total_service_rate.getD 0
  let N := metrics.num_customers.getD 0;
  -(cp.r * X - cp.C_s * total_mu - cp.C_N * N)

/-- Modelled from the spec: the claimed profit value
`-(r·X − C_s·Σmu − C_N·N)` where `X` is the solved throughput, `Σmu` the
total service rate of the solved network and `N` its customer population
(stated for comparison with `ObjectiveFunctions.profit`). -/
def specProfit (net : QueueingNetwork) (cp : CostParams) : ℚ :=
  -(cp.r * (MVASolver.solve net).throughput - cp.C_s * net.mu.sum
    - cp.C_N * (net.N : ℚ))

/-- `np.percentile(samples, p)` with the default linear-interpolation
method: sort ascending, take `h = (p/100)·(n-1)`, and interpolate between
the neighbouring order statistics (upper index clipped to `n-1`). -/
def npPercentile (samples : List ℚ) (p : ℚ) : ℚ :=
  let sorted := sortQ samples
  let n := sorted.length
  let h := (p / 100) * ((n : ℚ) - 1)
  let lo := (⌊h⌋).toNat
  let frac := h - ⌊h⌋
  let a := sorted.getD lo 0
  let b := sorted.getD (min (lo + 1) (n - 1)) 0
  a + frac * (b - a)

/-- `ObjectiveFunctions.response_time_percentile`: prefer the
`response_time_samples` key; otherwise fall back to
`metrics.get('response_times', [])`; return `float('inf')` (modelled as `⊤`
in `WithTop ℚ`) only when the chosen sample list is empty. -/
def ObjectiveFunctions.response_time_percentile (metrics : Metrics)
    (percentile : ℚ) : WithTop ℚ :=
  let samples := match metrics.response_time_samples with
    | some s => s
    | none => metrics.response_times
  if samples.length = 0 then ⊤
  else ((npPercentile samples percentile : ℚ) : WithTop ℚ)

/-! ### Numpy-float scalar model (for C4 / C7)

The rational model above idealizes IEEE arithmetic; the two claims about
`mu ≤ 0` and about a zero baseline objective are precisely about numpy's
special values (`1.0/0.0 = inf`, `0.0*inf = nan`, silent `0/0`), so for
them the relevant code is re-embedded over `NpF`, rationals extended with
`±inf` and `nan` with numpy scalar semantics. -/

/-- A numpy floating-point scalar: a finite value (idealized as an exact
rational), `±inf`, or `nan`. -/
inductive NpF
  | fin (q : ℚ)
  | inf
  | ninf
  | nan
deriving Repr, DecidableEq

/-- IEEE negation. -/
def NpF.neg : NpF → NpF
  | fin a => fin (-a)
  | inf => ninf
  | ninf => inf
  | nan => nan

/-- IEEE addition (`inf + (-inf) = nan`, `nan` absorbs). -/
def NpF.add : NpF → NpF → NpF
  | nan, _ => nan
  | _, nan => nan
  | fin a, fin b => fin (a + b)
  | fin _, inf => inf
  | inf, fin _ => inf
  | fin _, ninf => ninf
  | ninf, fin _ => ninf
  | inf, inf => inf
  | ninf, ninf => ninf
  | inf, ninf => nan
  | ninf, inf => nan

/-- IEEE subtraction. -/
def NpF.sub (x y : NpF) : NpF := x.add y.neg

/-- IEEE multiplication (`0 * inf = nan`, sign rules, `nan` absorbs). -/
def NpF.mul : NpF → NpF → NpF
  | nan, _ => nan
  | _, nan => nan
  | fin a, fin b => fin (a * b)
  | fin a, inf => if a = 0 then nan else if 0 < a then inf else ninf
  | fin a, ninf => if a = 0 then nan else if 0 < a then ninf else inf
  | inf, fin b => if b = 0 then nan else if 0 < b then inf else ninf
  | ninf, fin b => if b = 0 then nan else if 0 < b then ninf else inf
  | inf, inf => inf
  | inf, ninf => ninf
  | ninf, inf => ninf
  | ninf, ninf => inf

/-- Numpy scalar division: `x/0` is `±inf` for `x ≠ 0` and `nan` for
`x = 0` (a RuntimeWarning, not an exception); `finite/±inf = 0`;
`±inf/±inf = nan`.  Zero denominators are treated as `+0.0`. -/
def NpF.div : NpF → NpF → NpF
  | nan, _ => nan
  | _, nan => nan
  | fin a, fin b =>
    if b = 0 then (if a = 0 then nan else if 0 < a then inf else ninf)
    else fin (a / b)
  | fin _, inf => fin 0
  | fin _, ninf => fin 0
  | inf, fin b => if 0 ≤ b then inf else ninf
  | ninf, fin b => if 0 ≤ b then ninf else inf
  | inf, inf => nan
  | inf, ninf => nan
  | ninf, inf => nan
  | ninf, ninf => nan

/-- IEEE `<` (comparisons with `nan` are false). -/
def NpF.lt : NpF → NpF → Bool
  | nan, _ => false
  | _, nan => false
  | fin a, fin b => decide (a < b)
  | fin _, inf => true
  | inf, fin _ => false
  | ninf, fin _ => true
  | fin _, ninf => false
  | ninf, inf => true
  | inf, ninf => false
  | inf, inf => false
  | ninf, ninf => false

/-- Python's two-argument `min`: the second argument only when it is
strictly smaller (so `min(nan, x) = nan`). -/
def pymin (a b : NpF) : NpF := if NpF.lt b a then b else a

/-- `np.sum` over a list of numpy scalars (left fold from `0.0`). -/
def sumNp (l : List NpF) : NpF := l.foldl NpF.add (NpF.fin 0)

/-- `stationResponse` over numpy scalars (same code path as the rational
model: `service_time = 1.0/mu[i]`, which is `inf` when `mu[i] = 0`). -/
def stationResponseNp (mu_i : ℚ) (m_i : ℕ) (n : ℕ) (qprev : NpF) : NpF :=
  let service_time := (NpF.fin 1).div (NpF.fin mu_i)
  if m_i = 1 then service_time.mul ((NpF.fin 1).add qprev)
  else
    let avg_service_rate := (NpF.fin ((min n m_i : ℕ) : ℚ)).mul (NpF.fin mu_i)
    if (NpF.fin 0).lt avg_service_rate then
      service_time.mul ((NpF.fin 1).add (qprev.div (NpF.fin (m_i : ℚ))))
    else service_time

/-- `meanRof` over numpy scalars. -/
def meanRofNp (e : List ℚ) (R : List NpF) : NpF :=
  sumNp (List.zipWith (fun e_i r_i => (NpF.fin e_i).mul r_i) e R)

/-- `littleX` over numpy scalars. -/
def littleXNp (n : ℕ) (meanR : NpF) : NpF :=
  if (NpF.fin 0).lt meanR then (NpF.fin (n : ℚ)).div meanR else NpF.fin 0

/-- `mvaStep` over numpy scalars. -/
def mvaStepNp (mu : List ℚ) (m : List ℕ) (e : List ℚ) (n : ℕ)
    (Qprev : List NpF) : List NpF × List NpF :=
  let R := List.zipWith
    (fun mu_i (p : ℕ × NpF) => stationResponseNp mu_i p.1 n p.2) mu (m.zip Qprev)
  let X := littleXNp n (meanRofNp e R)
  (R, List.zipWith (fun e_i r_i => (X.mul (NpF.fin e_i)).mul r_i) e R)

/-- `mvaLoop` over numpy scalars. -/
def mvaLoopNp (K : ℕ) (mu : List ℚ) (m : List ℕ) (e : List ℚ) :
    ℕ → List NpF × List NpF
  | 0 => (List.replicate K (NpF.fin 0), List.replicate K (NpF.fin 0))
  | n + 1 => mvaStepNp mu m e (n + 1) (mvaLoopNp K mu m e n).2

/-- Metrics record of `MVASolver.solve` in the numpy-scalar model. -/
structure MetricsNp where
  mean_response_time : NpF
  mean_queue_length : NpF
  queue_lengths : List NpF
  response_times : List NpF
  utilizations : List NpF
  throughput : NpF
  total_servers : ℕ
deriving Repr, DecidableEq

/-- `MVASolver.solve` over numpy scalars: the very same algorithm as
`MVASolver.solve`, with the IEEE special values kept.  It is a total
function: the Python body contains no `raise` and no validation of `mu`,
so every input produces a metrics record. -/
def MVASolver.solveNp (net : QueueingNetwork) : MetricsNp :=
  let final := mvaLoopNp net.K net.mu net.m net.e net.N
  let mean_response_time := meanRofNp net.e final.1
  let throughput := littleXNp net.N mean_response_time
  let utilizations := List.zipWith
    (fun (p : ℕ × ℚ) e_i =>
      let X_i := throughput.mul (NpF.fin e_i)
      let max_rate := NpF.fin ((p.1 : ℚ) * p.2)
      if (NpF.fin 0).lt max_rate then pymin (X_i.div max_rate) (NpF.fin 1)
      else NpF.fin 0)
    (net.m.zip net.mu) net.e
  { mean_response_time := mean_response_time
    mean_queue_length := sumNp final.2
    queue_lengths := final.2
    response_times := final.1
    utilizations := utilizations
    throughput := throughput
    total_servers := net.m.sum }

/-- The 1-station network with service rate `mu = [0]` (`K=1`, `N=1`),
accepted without complaint by the constructor (which never validates `mu`). -/
def netZero : QueueingNetwork :=
  ((QueueingNetwork.init 1 1 [0] [1] none none).toOption).getD default

/-- `QueueingOptimizer.optimize`, `KROK 4`:
`improvement_percent = ((baseline_objective - best_value) /
baseline_objective) * 100`.  `best_value` is an `np.float64`, so these are
numpy scalar operations: a zero baseline silently yields `±inf`/`nan`
(RuntimeWarning) instead of raising. -/
def QueueingOptimizer.improvement_percent (baseline_objective best_value : NpF) :
    NpF :=
  ((baseline_objective.sub best_value).div baseline_objective).mul (NpF.fin 100)

/-! ### FireflyAlgorithm (src/algorithms/firefly.py)

Randomness is modelled by an explicit stream `ℕ → ℚ` of uniform draws
(`np.random.uniform` / `np.random.rand` consume it in program order; a
threaded counter records the next unused index).  Attractiveness
`β(r) = β₀·exp(−γ·r²)` is kept abstract as a function of the squared
Euclidean distance (`exp` is transcendental and the claims under proof do
not depend on its value). -/

/-- Hyperparameters and problem data of one `FireflyAlgorithm` run. -/
structure FAParams where
  lower : List ℚ
  upper : List ℚ
  n_fireflies : ℕ
  max_iterations : ℕ
  alpha : ℚ
  beta_r2 : ℚ → ℚ
  integer_vars : List ℕ

/-- Search-space dimensionality `n_dimensions = len(bounds)`. -/
def FAParams.d (p : FAParams) : ℕ := p.lower.length

/-- Consume `d` consecutive uniform draws starting at stream index `idx`. -/
def drawVec (stream : ℕ → ℚ) (idx d : ℕ) : List ℚ :=
  (List.range d).map (fun k => stream (idx + k))

/-- `for idx in integer_vars: v[idx] = np.round(v[idx])`, position-indexed
from `off`. -/
def roundIntAux (iv : List ℕ) (off : ℕ) : List ℚ → List ℚ
  | [] => []
  | x :: xs =>
    (if off ∈ iv then ((roundHalfEven x : ℤ) : ℚ) else x) :: roundIntAux iv (off + 1) xs

/-- Round the integer-dimension entries of a position vector. -/
def roundIntVars (iv : List ℕ) (pos : List ℚ) : List ℚ := roundIntAux iv 0 pos

/-- `np.clip(x, lower, upper)` componentwise: `min(max(x, lo), hi)`. -/
def clipVec (lower upper x : List ℚ) : List ℚ :=
  List.zipWith (fun (b : ℚ × ℚ) v => min (max v b.1) b.2) (lower.zip upper) x

/-- `_initialize_fireflies`: `n` rows sampled uniformly within the bounds
(`lower + u·(upper − lower)` per dimension, row-major draw order), then
integer dimensions rounded.  Returns the population and the next free
stream index. -/
def initFireflies (p : FAParams) (stream : ℕ → ℚ) : List (List ℚ) × ℕ :=
  ((List.range p.n_fireflies).map (fun i =>
    roundIntVars p.integer_vars
      (List.zipWith (fun (b : ℚ × ℚ) u => b.1 + u * (b.2 - b.1))
        (p.lower.zip p.upper) (drawVec stream (i * p.d) p.d))),
   p.n_fireflies * p.d)

/-- `_evaluate_fireflies`: score every position; an objective that raises
(`none`) is replaced by the sentinel `1e10`. -/
def evalFireflies (objective : List ℚ → Option ℚ) (pos : List (List ℚ)) : List ℚ :=
  pos.map (fun x => (objective x).getD (10 ^ 10 : ℚ))

/-- Accumulator for `np.argmin` (first index of the minimum). -/
def argminAux : List ℚ → ℕ → ℕ → ℚ → ℕ
  | [], _, bi, _ => bi
  | x :: xs, i, bi, bv =>
    if x < bv then argminAux xs (i + 1) i x else argminAux xs (i + 1) bi bv

/-- `np.argmin` (first index of the minimum; numpy raises on an empty
array, no claim touches that case). -/
def argminIdx : List ℚ → ℕ
  | [] => 0
  | x :: xs => argminAux xs 1 0 x

/-- Squared Euclidean distance `‖x − y‖²` (the attractiveness only ever
reads the square of `_distance`). -/
def distSq (x y : List ℚ) : ℚ := (List.zipWith (fun a b => (a - b) ^ 2) x y).sum

/-- `_move_firefly`: attraction plus randomness, then clip to the bounds,
then round integer dimensions (in that order — the post-clip rounding is
what lets integer entries escape fractional bounds). -/
def moveFirefly (p : FAParams) (xi xj : List ℚ) (beta : ℚ) (rs : List ℚ) :
    List ℚ :=
  roundIntVars p.integer_vars (clipVec p.lower p.upper
    (List.zipWith
      (fun (a : ℚ × ℚ) u => a.1 + beta * (a.2 - a.1) + p.alpha * (u - 1/2))
      (xi.zip xj) rs))

/-- One ordered pair `(i, j)` of the sweep: move firefly `i` toward `j`
when `j` is brighter (`intensities` stay frozen during the sweep, but the
moved position is immediately visible to later pairs). -/
def sweepPair (p : FAParams) (stream : ℕ → ℚ) (intens : List ℚ) (i j : ℕ)
    (st : List (List ℚ) × ℕ) : List (List ℚ) × ℕ :=
  if intens.getD j 0 < intens.getD i 0 then
    let xi := st.1.getD i []
    let xj := st.1.getD j []
    let beta := p.beta_r2 (distSq xi xj)
    (st.1.set i (moveFirefly p xi xj beta (drawVec stream st.2 p.d)), st.2 + p.d)
  else st

/-- The full in-place pairwise sweep over all ordered pairs `(i, j)`. -/
def sweepAll (p : FAParams) (stream : ℕ → ℚ) (intens : List ℚ)
    (st : List (List ℚ) × ℕ) : List (List ℚ) × ℕ :=
  (List.range p.n_fireflies).foldl
    (fun acc i => (List.range p.n_fireflies).foldl
      (fun acc2 j => sweepPair p stream intens i j acc2) acc)
    st

/-- Unconditional random walk of the current best firefly (chosen by the
pre-sweep intensities), followed by clip and integer rounding. -/
def bestWalk (p : FAParams) (stream : ℕ → ℚ) (intens : List ℚ)
    (st : List (List ℚ) × ℕ) : List (List ℚ) × ℕ :=
  let bi := argminIdx intens
  let xb := st.1.getD bi []
  let xb2 := List.zipWith (fun a u => a + p.alpha * (u - 1/2)) xb
    (drawVec stream st.2 p.d)
  (st.1.set bi (roundIntVars p.integer_vars (clipVec p.lower p.upper xb2)),
   st.2 + p.d)

/-- The four append-only history channels of a run. -/
structure FAHistory where
  best_values : List ℚ
  mean_values : List ℚ
  worst_values : List ℚ
  best_solutions : List (List ℚ)
deriving Repr, DecidableEq

/-- Mutable state of the optimization loop. -/
structure FAState where
  fireflies : List (List ℚ)
  intensities : List ℚ
  best_solution : List ℚ
  best_value : ℚ
  history : FAHistory
  rng : ℕ
deriving Repr, DecidableEq

/-- One iteration of the main loop: pairwise sweep, best-firefly walk,
re-evaluation, best-so-far update, history append. -/
def faIteration (p : FAParams) (objective : List ℚ → Option ℚ)
    (stream : ℕ → ℚ) (st : FAState) : FAState :=
  let swept := sweepAll p stream st.intensities (st.fireflies, st.rng)
  let walked := bestWalk p stream st.intensities swept
  let intens2 := evalFireflies objective walked.1
  let cbi := argminIdx intens2
  let cbv := intens2.getD cbi 0
  let best2 := if cbv < st.best_value then (cbv, walked.1.getD cbi [])
               else (st.best_value, st.best_solution)
  { fireflies := walked.1
    intensities := intens2
    best_solution := best2.2
    best_value := best2.1
    history := { best_values := st.history.best_values ++ [best2.1]
                 mean_values := st.history.mean_values
                   ++ [intens2.sum / (intens2.length : ℚ)]
                 worst_values := st.history.worst_values ++ [listMaxQ intens2]
                 best_solutions := st.history.best_solutions ++ [best2.2] }
    rng := walked.2 }

/-- Iterate `faIteration` a fixed number of times. -/
def faLoop (p : FAParams) (objective : List ℚ → Option ℚ) (stream : ℕ → ℚ) :
    ℕ → FAState → FAState
  | 0, st => st
  | k + 1, st => faLoop p objective stream k (faIteration p objective stream st)

/-- `FireflyAlgorithm.optimize`: initialize and evaluate the population,
record the initial best, run `max_iterations` iterations, and return
`(best_solution, best_value, history)`.  Note the history starts empty —
entries are appended only inside the loop. -/
def FireflyAlgorithm.optimize (p : FAParams) (objective : List ℚ → Option ℚ)
    (stream : ℕ → ℚ) : List ℚ × ℚ × FAHistory :=
  let ini := initFireflies p stream
  let intens0 := evalFireflies objective ini.1
  let b0 := argminIdx intens0
  let st0 : FAState :=
    { fireflies := ini.1, intensities := intens0,
      best_solution := ini.1.getD b0 [], best_value := intens0.getD b0 0,
      history := ⟨[], [], [], []⟩, rng := ini.2 }
  let stF := faLoop p objective stream p.max_iterations st0
  (stF.best_solution, stF.best_value, stF.history)

/-- Concrete run exhibiting the bounds violation: one firefly, one integer
dimension with the fractional bounds `[0, 3/5]`, zero iterations, and a
uniform draw of `9/10` (so the initial position is `0.54`, rounded to `1`). -/
def pC2 : FAParams :=
  { lower := [0], upper := [3/5], n_fireflies := 1, max_iterations := 0,
    alpha := 0, beta_r2 := fun _ => 0, integer_vars := [0] }

/-- Constant-zero objective for the concrete runs. -/
def objC2 : List ℚ → Option ℚ := fun _ => some 0

/-- Constant stream of draws `9/10`. -/
def streamC2 : ℕ → ℚ := fun _ => 9/10

/-- Concrete run for the history-length counterexample: one firefly, one
continuous dimension, one iteration. -/
def pC8 : FAParams :=
  { lower := [0], upper := [1], n_fireflies := 1, max_iterations := 1,
    alpha := 0, beta_r2 := fun _ => 0, integer_vars := [] }

/-- Constant stream of draws `0`. -/
def streamC8 : ℕ → ℚ := fun _ => 0

/-- A position vector of the right dimensionality whose entries respect the
bounds and whose integer-dimension entries are exact integers. -/
def GoodVec (p : FAParams) (x : List ℚ) : Prop :=
  x.length = p.d ∧ ∀ k, k < p.d →
    p.lower.getD k 0 ≤ x.getD k 0 ∧ x.getD k 0 ≤ p.upper.getD k 0 ∧
    (k ∈ p.integer_vars → ∃ z : ℤ, x.getD k 0 = (z : ℚ))

/-- Every firefly of a population is a `GoodVec`. -/
def AllGood (p : FAParams) (pos : List (List ℚ)) : Prop :=
  ∀ x ∈ pos, GoodVec p x

/-- Loop invariant: population size `n`, all positions good, intensity
vector of size `n`, and a good best-so-far vector. -/
def StInv (p : FAParams) (st : FAState) : Prop :=
  st.fireflies.length = p.n_fireflies ∧ AllGood p st.fireflies ∧
  st.intensities.length = p.n_fireflies ∧ GoodVec p st.best_solution

/-! ### Helper lemmas -/

theorem net1_eq :
    net1 = { K := 1, N := 10, mu := [2], m := [1], P := [[1]], e := [1],
             station_names := ["Stacja 1"] } := by
  simp only [net1, QueueingNetwork.init]
  norm_num [visitRatios, transposeQ, List.range_succ, solveLin, List.find?]
  rfl

theorem solve_net1 :
    MVASolver.solve net1 =
      { mean_response_time := 5, mean_queue_length := 10, queue_lengths := [10],
        response_times := [5], utilizations := [1], throughput := 2,
        total_servers := 1, station_names := ["Stacja 1"] } := by
  rw [net1_eq]
  norm_num [MVASolver.solve, mvaLoop, mvaStep, stationResponse, meanRof, littleX]

theorem solve_mql_def (net : QueueingNetwork) :
    (MVASolver.solve net).mean_queue_length
      = (mvaLoop net.K net.mu net.m net.e net.N).2.sum := rfl

theorem solve_mrt_def (net : QueueingNetwork) :
    (MVASolver.solve net).mean_response_time
      = meanRof net.e (mvaLoop net.K net.mu net.m net.e net.N).1 := rfl

theorem solve_tp_def (net : QueueingNetwork) :
    (MVASolver.solve net).throughput
      = littleX net.N (MVASolver.solve net).mean_response_time := rfl

theorem sum_Q_row (X : ℚ) (e R : List ℚ) :
    (List.zipWith (fun e_i r_i => (X * e_i) * r_i) e R).sum = X * meanRof e R := by
  induction e generalizing R with
  | nil => simp [meanRof]
  | cons a as ih =>
    cases R with
    | nil => simp [meanRof]
    | cons b bs =>
      simp only [meanRof, List.zipWith_cons_cons, List.sum_cons] at ih ⊢
      rw [ih]; ring

/-- The total queue length reported by `solve` factors as
throughput · mean response time (exactly, in rational arithmetic). -/
theorem solve_littles_law (net : QueueingNetwork) (hN : 0 < net.N) :
    (MVASolver.solve net).mean_queue_length
      = (MVASolver.solve net).throughput * (MVASolver.solve net).mean_response_time := by
  obtain ⟨n, hn⟩ : ∃ n, net.N = n + 1 := ⟨net.N - 1, by omega⟩
  rw [solve_mql_def, solve_tp_def, solve_mrt_def, hn]
  simp only [mvaLoop, mvaStep]
  exact sum_Q_row _ _ _

/-- When the solved mean response time is positive, the reported total queue
length telescopes to exactly the customer population `N`. -/
theorem solve_mql_eq_N (net : QueueingNetwork) (hN : 0 < net.N)
    (hmrt : 0 < (MVASolver.solve net).mean_response_time) :
    (MVASolver.solve net).mean_queue_length = (net.N : ℚ) := by
  rw [solve_littles_law net hN, solve_tp_def net, littleX, if_pos hmrt,
    div_mul_cancel₀ _ (ne_of_gt hmrt)]

/-- On the concrete single-station data (`K=1`, `mu=[2]`, `m=[1]`, `e=[1]`)
the solver loop reproduces the spec's closed-form recurrence at every
population, and the recurrence's queue lengths are nonnegative. -/
theorem specRecurrence_loop (n : ℕ) :
    0 ≤ (specRecurrence n).2.2 ∧
    mvaLoop 1 [2] [1] [1] n = ([(specRecurrence n).1], [(specRecurrence n).2.2]) := by
  induction n with
  | zero => exact ⟨le_refl 0, rfl⟩
  | succ n ih =>
    obtain ⟨hQ, hloop⟩ := ih
    have hR : (0:ℚ) < (1/2) * (1 + (specRecurrence n).2.2) := by nlinarith
    have hstep : mvaLoop 1 [2] [1] [1] (n + 1)
        = ([(specRecurrence (n+1)).1], [(specRecurrence (n+1)).2.2]) := by
      simp only [mvaLoop, hloop, mvaStep, stationResponse, meanRof, littleX,
        specRecurrence, List.zip_cons_cons, List.zipWith_cons_cons,
        List.zipWith_nil_right, List.zip_nil_right, List.zipWith_nil_left,
        List.sum_cons, List.sum_nil, if_pos rfl]
      norm_num
      intro h
      nlinarith
    refine ⟨?_, hstep⟩
    have hs : (specRecurrence (n+1)).2.2
        = (((n + 1 : ℕ) : ℚ) / ((1/2) * (1 + (specRecurrence n).2.2)))
          * ((1/2) * (1 + (specRecurrence n).2.2)) := by
      simp only [specRecurrence]
    rw [hs, div_mul_cancel₀ _ (ne_of_gt hR)]
    positivity

/-! ### Claim theorems: C1, C3, C10 -/

/-- C1: for the 1-station network with `K=1`, `m=[1]`, `mu=2.0`, `N=10`,
`MVASolver.solve` follows the MVA recurrence `S=0.5`, `Q[0]=0`,
`R[n]=S·(1+Q[n-1])`, `X[n]=n/R[n]`, `Q[n]=X[n]·R[n]` for `n=1..10`:
in particular `R(1)=0.5`, `X(1)=2.0`, `Q(1)=1.0`, and the returned
`mean_response_time`, `throughput` and `mean_queue_length` equal the
closed-form recurrence values at `n=10` exactly. -/
theorem mva_golden_single_station :
    (∀ n, n ≤ 10 →
      mvaLoop net1.K net1.mu net1.m net1.e n
        = ([(specRecurrence n).1], [(specRecurrence n).2.2])) ∧
    (specRecurrence 1).1 = 1/2 ∧ (specRecurrence 1).2.1 = 2 ∧
    (specRecurrence 1).2.2 = 1 ∧
    (MVASolver.solve net1).mean_response_time = (specRecurrence 10).1 ∧
    (MVASolver.solve net1).throughput = (specRecurrence 10).2.1 ∧
    (MVASolver.solve net1).mean_queue_length = (specRecurrence 10).2.2 := by
  refine ⟨?_, by norm_num [specRecurrence], by norm_num [specRecurrence],
    by norm_num [specRecurrence], ?_, ?_, ?_⟩
  · intro n hn
    rw [net1_eq]
    exact (specRecurrence_loop n).2
  all_goals rw [solve_net1]
  all_goals norm_num [specRecurrence]

/-- C1 witness: the recurrence conjunct evaluated at `n = 1`. -/
theorem mva_golden_single_station_witness :
    mvaLoop net1.K net1.mu net1.m net1.e 1
      = ([(specRecurrence 1).1], [(specRecurrence 1).2.2]) :=
  mva_golden_single_station.1 1 (by norm_num)

/-- C3: for every valid network (`K≥1`, `N≥1`, `mu[i]>0`, `m[i]≥1`), the
metrics record of `MVASolver.solve` satisfies Little's law at the solved
population: `mean_queue_length = throughput · mean_response_time` (exactly,
hence within any numerical tolerance). -/
theorem solve_satisfies_littles_law (net : QueueingNetwork)
    (hK : 0 < net.K) (hN : 0 < net.N)
    (hmu : ∀ q ∈ net.mu, 0 < q) (hm : ∀ k ∈ net.m, 1 ≤ k) :
    (MVASolver.solve net).mean_queue_length
      = (MVASolver.solve net).throughput * (MVASolver.solve net).mean_response_time :=
  solve_littles_law net hN

/-- C3 witness: Little's law on the concrete network `net1`. -/
theorem solve_satisfies_littles_law_witness :
    (MVASolver.solve net1).mean_queue_length
      = (MVASolver.solve net1).throughput * (MVASolver.solve net1).mean_response_time :=
  solve_satisfies_littles_law net1 (by rw [net1_eq]; norm_num)
    (by rw [net1_eq]; norm_num) (by rw [net1_eq]; norm_num)
    (by rw [net1_eq]; norm_num)

/-- C10: whenever the solved mean response time is positive, the reported
`mean_queue_length` equals the population `N` exactly (the per-station queue
lengths `Q[N][i] = X·e[i]·R[N][i]` telescope to `N` because
`X = N / Σᵢ e[i]·R[N][i]`); consequently the `mean_queue_length` objective
depends only on the customer population: it is constant across networks
sharing the same `N`. -/
theorem solve_mean_queue_length_is_population (net : QueueingNetwork)
    (hN : 0 < net.N)
    (hmrt : 0 < (MVASolver.solve net).mean_response_time) :
    (MVASolver.solve net).mean_queue_length = (net.N : ℚ) ∧
    ∀ net2 : QueueingNetwork, 0 < net2.N → net2.N = net.N →
      0 < (MVASolver.solve net2).mean_response_time →
      ObjectiveFunctions.mean_queue_length (MVASolver.solve net2)
        = ObjectiveFunctions.mean_queue_length (MVASolver.solve net) := by
  refine ⟨solve_mql_eq_N net hN hmrt, ?_⟩
  intro net2 hN2 hEq hmrt2
  simp only [ObjectiveFunctions.mean_queue_length]
  rw [solve_mql_eq_N net2 hN2 hmrt2, solve_mql_eq_N net hN hmrt, hEq]

/-- C10 witness: on `net1` the reported mean queue length is the population
`10`. -/
theorem solve_mean_queue_length_is_population_witness :
    (MVASolver.solve net1).mean_queue_length = (net1.N : ℚ) :=
  (solve_mean_queue_length_is_population net1 (by rw [net1_eq]; norm_num)
    (by rw [solve_net1]; norm_num)).1

/-! ### Claim theorems: C5, C6 -/

/-- Helper: `mvaLoop` preserves the station-count `K` as the length of both
result vectors, provided the inputs have length `K`. -/
theorem mvaLoop_length (K : ℕ) (mu : List ℚ) (m : List ℕ) (e : List ℚ)
    (hmu : mu.length = K) (hm : m.length = K) (he : e.length = K) (n : ℕ) :
    (mvaLoop K mu m e n).1.length = K ∧ (mvaLoop K mu m e n).2.length = K := by
  induction n with
  | zero => simp [mvaLoop]
  | succ n ih =>
    have hR : (mvaStep mu m e (n+1) (mvaLoop K mu m e n).2).1.length = K := by
      simp [mvaStep, List.length_zipWith, List.length_zip, hmu, hm, ih.2]
    refine ⟨hR, ?_⟩
    simp only [mvaLoop, mvaStep] at hR ⊢
    simp [List.length_zipWith, hR, he]

/-- C5 counterexample: on the solver record of the concrete network `net1`
(`X = 2`, `Σmu = 2`, `N = 10`) with cost parameters
`{r: 10, C_s: 1, C_N: 0.5}`, `ObjectiveFunctions.profit` returns `-20`
(it reads the missing record keys as `0`), while the claimed formula
`-(r·X − C_s·Σmu − C_N·N)` gives `-13`. -/
theorem profit_differs_from_spec_formula :
    ObjectiveFunctions.profit (MVASolver.solve net1) (some ⟨10, 1, 1/2⟩) = -20 ∧
    specProfit net1 ⟨10, 1, 1/2⟩ = -13 ∧
    ObjectiveFunctions.profit (MVASolver.solve net1) (some ⟨10, 1, 1/2⟩)
      ≠ specProfit net1 ⟨10, 1, 1/2⟩ := by
  rw [specProfit, ObjectiveFunctions.profit, solve_net1, net1_eq]
  norm_num

/-- C5 (amended): the solver's metrics record carries neither a
`total_service_rate` nor a `num_customers` key, so on every solver-produced
record and every cost-parameter dict `{r, C_s, C_N}` the profit objective
returns `-(r·X − C_s·0 − C_N·0) = -(r·X)`, with `X` the record's
throughput — not the spec's `-(r·X − C_s·Σmu − C_N·N)`. -/
theorem profit_on_solver_records (net : QueueingNetwork) (cp : CostParams) :
    (MVASolver.solve net).total_service_rate = none ∧
    (MVASolver.solve net).num_customers = none ∧
    ObjectiveFunctions.profit (MVASolver.solve net) (some cp)
      = -(cp.r * (MVASolver.solve net).throughput) := by
  refine ⟨rfl, rfl, ?_⟩
  simp only [ObjectiveFunctions.profit]
  rw [show (MVASolver.solve net).total_service_rate = none from rfl,
    show (MVASolver.solve net).num_customers = none from rfl]
  simp only [Option.getD]
  ring

/-- C6 counterexample: the solver record for `net1` carries no per-sample
response times, yet the percentile objective returns the finite value `5`
(the 95th percentile of the per-station `response_times = [5]`), not `+∞`. -/
theorem percentile_finite_on_aggregate_record :
    (MVASolver.solve net1).response_time_samples = none ∧
    ObjectiveFunctions.response_time_percentile (MVASolver.solve net1) 95
      = ((5 : ℚ) : WithTop ℚ) ∧
    ObjectiveFunctions.response_time_percentile (MVASolver.solve net1) 95 ≠ ⊤ := by
  have hval : ObjectiveFunctions.response_time_percentile (MVASolver.solve net1) 95
      = ((5 : ℚ) : WithTop ℚ) := by
    rw [solve_net1]
    norm_num [ObjectiveFunctions.response_time_percentile, npPercentile, sortQ,
      insertQ]
  exact ⟨rfl, hval, by rw [hval]; exact WithTop.coe_ne_top⟩

/-- C6 (amended): `response_time_percentile` returns `+∞` exactly when both
the per-sample key is missing/empty and the fallback per-station
`response_times` list is empty; solver-produced records for a network with
`K ≥ 1` stations always carry a nonempty `response_times`, so on them the
objective returns the (finite) percentile of the per-station response times
instead of `+∞`. -/
theorem percentile_top_iff_no_samples :
    (∀ (metrics : Metrics) (p : ℚ),
      ObjectiveFunctions.response_time_percentile metrics p = ⊤ ↔
        (match metrics.response_time_samples with
         | some s => s
         | none => metrics.response_times).length = 0) ∧
    (∀ (net : QueueingNetwork) (p : ℚ),
      net.mu.length = net.K → net.m.length = net.K → net.e.length = net.K →
      0 < net.K →
      ObjectiveFunctions.response_time_percentile (MVASolver.solve net) p ≠ ⊤) := by
  have hiff : ∀ (metrics : Metrics) (p : ℚ),
      ObjectiveFunctions.response_time_percentile metrics p = ⊤ ↔
        (match metrics.response_time_samples with
         | some s => s
         | none => metrics.response_times).length = 0 := by
    intro metrics p
    rw [ObjectiveFunctions.response_time_percentile]
    split
    · simp_all
    · simp_all [WithTop.coe_ne_top]
  refine ⟨hiff, ?_⟩
  intro net p hmu hm he hK hTop
  rw [hiff] at hTop
  have hsamp : (MVASolver.solve net).response_time_samples = none := rfl
  simp only [hsamp] at hTop
  have hlen : (MVASolver.solve net).response_times.length = net.K :=
    (mvaLoop_length net.K net.mu net.m net.e hmu hm he net.N).1
  omega

/-- C6 witness: the amended statement instantiated on `net1` at the 99th
percentile. -/
theorem percentile_top_iff_no_samples_witness :
    ObjectiveFunctions.response_time_percentile (MVASolver.solve net1) 99 ≠ ⊤ :=
  percentile_top_iff_no_samples.2 net1 99 (by rw [net1_eq]; rfl)
    (by rw [net1_eq]; rfl) (by rw [net1_eq]; rfl) (by rw [net1_eq]; norm_num)

/-! ### Claim theorems: C4, C7 -/

theorem netZero_eq :
    netZero = { K := 1, N := 1, mu := [0], m := [1], P := [[1]], e := [1],
                station_names := ["Stacja 1"] } := by
  simp only [netZero, QueueingNetwork.init]
  norm_num [visitRatios, transposeQ, List.range_succ, solveLin, List.find?]
  rfl

/-- C4 counterexample: for the network with `mu = [0]` the constructor
succeeds and `solve` returns a metrics record whose `mean_response_time` is
`inf` — it does not fail with any `InvalidServiceRate` error (no such error
exists in the code). -/
theorem solve_zero_rate_returns_inf :
    QueueingNetwork.init 1 1 [0] [1] none none = Except.ok netZero ∧
    (MVASolver.solveNp netZero).mean_response_time = NpF.inf := by
  constructor
  · rw [netZero_eq]
    simp only [QueueingNetwork.init]
    norm_num [visitRatios, transposeQ, List.range_succ, solveLin, List.find?]
    rfl
  · rw [netZero_eq]
    norm_num [MVASolver.solveNp, mvaLoopNp, mvaStepNp, stationResponseNp,
      meanRofNp, littleXNp, sumNp, NpF.add, NpF.mul, NpF.div, NpF.lt]

/-- C4 (amended): `MVASolver.solve` performs no validation of the service
rates; for the one-station network with `mu = [0]` it silently returns a
complete metrics record containing infinite and NaN values
(`mean_response_time = inf`, `mean_queue_length = nan`), exactly as numpy
evaluates `1.0/0.0` and `0.0·inf`. -/
theorem solveNp_zero_rate_record :
    MVASolver.solveNp netZero =
      { mean_response_time := NpF.inf, mean_queue_length := NpF.nan,
        queue_lengths := [NpF.nan], response_times := [NpF.inf],
        utilizations := [NpF.fin 0], throughput := NpF.fin 0,
        total_servers := 1 } := by
  rw [netZero_eq]
  norm_num [MVASolver.solveNp, mvaLoopNp, mvaStepNp, stationResponseNp,
    meanRofNp, littleXNp, sumNp, pymin, NpF.add, NpF.mul, NpF.div, NpF.lt]

/-- C7 counterexample: with a baseline objective of exactly `0` (and, say, a
best value of `0`), the percent-improvement computation returns the value
`nan` — it does not fail with any `DivisionUndefined` error (no such error
exists in the code; the numpy scalar division warns and proceeds). -/
theorem improvement_percent_zero_baseline_nan :
    QueueingOptimizer.improvement_percent (NpF.fin 0) (NpF.fin 0) = NpF.nan := by
  norm_num [QueueingOptimizer.improvement_percent, NpF.sub, NpF.neg, NpF.add,
    NpF.div, NpF.mul]

/-- C7 (amended): `QueueingOptimizer.optimize` computes the percent
improvement as `(baseline − best)/baseline · 100` (exactly the spec's
formula on finite values with nonzero baseline), but when the baseline
objective is exactly `0` the numpy division silently produces a non-finite
value (`nan` or `±inf`) — no `DivisionUndefined` error is surfaced. -/
theorem improvement_percent_formula :
    (∀ a b : ℚ, a ≠ 0 →
      QueueingOptimizer.improvement_percent (NpF.fin a) (NpF.fin b)
        = NpF.fin ((a - b) / a * 100)) ∧
    (∀ y : NpF, ∀ q : ℚ,
      QueueingOptimizer.improvement_percent (NpF.fin 0) y ≠ NpF.fin q) := by
  constructor
  · intro a b ha
    simp only [QueueingOptimizer.improvement_percent, NpF.sub, NpF.neg, NpF.add,
      NpF.div, NpF.mul, if_neg ha]
    norm_num [sub_eq_add_neg]
  · intro y q
    cases y with
    | fin b =>
      rcases lt_trichotomy b 0 with hb | hb | hb
      · norm_num [QueueingOptimizer.improvement_percent, NpF.sub, NpF.neg,
          NpF.add, NpF.div, NpF.mul, hb, hb.ne]
        exact fun h => nomatch h
      · subst hb
        simp [QueueingOptimizer.improvement_percent, NpF.sub, NpF.neg, NpF.add,
          NpF.div, NpF.mul]
      · have h2 : ¬ b < 0 := by linarith
        norm_num [QueueingOptimizer.improvement_percent, NpF.sub, NpF.neg,
          NpF.add, NpF.div, NpF.mul, hb.ne', h2]
        exact fun h => nomatch h
    | inf =>
      simp [QueueingOptimizer.improvement_percent, NpF.sub, NpF.neg, NpF.add,
        NpF.div, NpF.mul]
    | ninf =>
      simp [QueueingOptimizer.improvement_percent, NpF.sub, NpF.neg, NpF.add,
        NpF.div, NpF.mul]
    | nan =>
      simp [QueueingOptimizer.improvement_percent, NpF.sub, NpF.neg, NpF.add,
        NpF.div, NpF.mul]

/-- C7 witness: the formula at baseline `2`, best `1` (50% improvement), and
non-finiteness at baseline `0`. -/
theorem improvement_percent_formula_witness :
    QueueingOptimizer.improvement_percent (NpF.fin 2) (NpF.fin 1)
      = NpF.fin ((2 - 1) / 2 * 100) ∧
    QueueingOptimizer.improvement_percent (NpF.fin 0) NpF.nan ≠ NpF.fin 5 :=
  ⟨improvement_percent_formula.1 2 1 (by norm_num),
   improvement_percent_formula.2 NpF.nan 5⟩

/-! ### Claim theorems: C9 (configuration round-trip) -/

/-- C9 counterexample: feeding the snapshot of `net1` straight back into the
constructor fails with an `AttributeError`: `get_configuration` returns
`routing_matrix` as a plain (`tolist()`-ed) Python list, and the constructor
immediately reads `routing_matrix.shape`, which lists do not have. -/
theorem roundtrip_constructor_fails :
    QueueingNetwork.init net1.get_configuration.num_stations
      net1.get_configuration.num_customers
      net1.get_configuration.service_rates
      net1.get_configuration.num_servers
      (some (RoutingArg.pylist net1.get_configuration.routing_matrix))
      (some net1.get_configuration.station_names)
      = Except.error PyErr.attributeError := by
  rw [net1_eq]
  norm_num [QueueingNetwork.get_configuration, QueueingNetwork.init]

/-- C9 (amended): the round-trip succeeds — and then reproduces the very
same network, hence identical `MVASolver` metrics — only once the
snapshot's `routing_matrix` is converted back into a numpy array.  The
hypotheses are exactly the invariants the constructor establishes
(including `e = visitRatios P`). -/
theorem roundtrip_with_array_conversion (net : QueueingNetwork)
    (hK : 0 < net.K) (hN : 0 < net.N)
    (hmu : net.mu.length = net.K) (hm : net.m.length = net.K)
    (hnames : net.station_names.length = net.K)
    (hPlen : net.P.length = net.K)
    (hProws : net.P.all (fun row => row.length = net.K) = true)
    (hPsums : rowsAllCloseOne net.P = true)
    (he : net.e = visitRatios net.P) :
    QueueingNetwork.init net.get_configuration.num_stations
      net.get_configuration.num_customers
      net.get_configuration.service_rates
      net.get_configuration.num_servers
      (some (RoutingArg.arr net.get_configuration.routing_matrix))
      (some net.get_configuration.station_names)
      = Except.ok net ∧
    ∀ net2 : QueueingNetwork,
      QueueingNetwork.init net.get_configuration.num_stations
        net.get_configuration.num_customers
        net.get_configuration.service_rates
        net.get_configuration.num_servers
        (some (RoutingArg.arr net.get_configuration.routing_matrix))
        (some net.get_configuration.station_names)
        = Except.ok net2 →
      MVASolver.solve net2 = MVASolver.solve net := by
  have hmain : QueueingNetwork.init net.get_configuration.num_stations
      net.get_configuration.num_customers
      net.get_configuration.service_rates
      net.get_configuration.num_servers
      (some (RoutingArg.arr net.get_configuration.routing_matrix))
      (some net.get_configuration.station_names)
      = Except.ok net := by
    simp only [QueueingNetwork.get_configuration, QueueingNetwork.init,
      hK, hN, hmu, hm, hnames, hPlen, hProws, hPsums, not_true_eq_false,
      if_false, if_true, and_self, ← he]
  refine ⟨hmain, ?_⟩
  intro net2 h2
  rw [hmain] at h2
  cases h2
  rfl

/-- C9 witness: the amended round-trip on the concrete network `net1`. -/
theorem roundtrip_with_array_conversion_witness :
    QueueingNetwork.init net1.get_configuration.num_stations
      net1.get_configuration.num_customers
      net1.get_configuration.service_rates
      net1.get_configuration.num_servers
      (some (RoutingArg.arr net1.get_configuration.routing_matrix))
      (some net1.get_configuration.station_names)
      = Except.ok net1 :=
  (roundtrip_with_array_conversion net1
    (by rw [net1_eq]; norm_num) (by rw [net1_eq]; norm_num)
    (by rw [net1_eq]; rfl) (by rw [net1_eq]; rfl) (by rw [net1_eq]; rfl)
    (by rw [net1_eq]; rfl) (by rw [net1_eq]; rfl)
    (by rw [net1_eq]; norm_num [rowsAllCloseOne])
    (by rw [net1_eq]; norm_num [visitRatios, transposeQ, List.range_succ,
      solveLin, List.find?])).1

theorem getD_zipWith {α β γ : Type} (f : α → β → γ) (as : List α) (bs : List β)
    (da : α) (db : β) (dc : γ) (k : ℕ) (ha : k < as.length) (hb : k < bs.length) :
    (List.zipWith f as bs).getD k dc = f (as.getD k da) (bs.getD k db) := by
  induction as generalizing bs k with
  | nil => simp at ha
  | cons a as ih =>
    cases bs with
    | nil => simp at hb
    | cons b bs =>
      cases k with
      | zero => simp
      | succ k =>
        simp only [List.getD_cons_succ, List.zipWith_cons_cons]
        exact ih bs k (by simpa using ha) (by simpa using hb)

theorem length_roundIntAux (iv : List ℕ) (off : ℕ) (xs : List ℚ) :
    (roundIntAux iv off xs).length = xs.length := by
  induction xs generalizing off with
  | nil => rfl
  | cons x xs ih => simp [roundIntAux, ih]

theorem getD_roundIntAux (iv : List ℕ) (off : ℕ) (xs : List ℚ) (k : ℕ)
    (hk : k < xs.length) :
    (roundIntAux iv off xs).getD k 0
      = if (off + k) ∈ iv then ((roundHalfEven (xs.getD k 0) : ℤ) : ℚ)
        else xs.getD k 0 := by
  induction xs generalizing off k with
  | nil => simp at hk
  | cons x xs ih =>
    cases k with
    | zero => simp [roundIntAux]
    | succ k =>
      simp only [roundIntAux, List.getD_cons_succ]
      rw [ih (off + 1) k (by simpa using hk)]
      have : off + 1 + k = off + (k + 1) := by omega
      rw [this]

theorem roundHalfEven_le_bounds (a b : ℤ) (x : ℚ) (h1 : (a : ℚ) ≤ x)
    (h2 : x ≤ (b : ℚ)) :
    (a : ℚ) ≤ ((roundHalfEven x : ℤ) : ℚ) ∧ ((roundHalfEven x : ℤ) : ℚ) ≤ (b : ℚ) := by
  have hfa : a ≤ ⌊x⌋ := Int.le_floor.mpr h1
  have hfb : ⌊x⌋ ≤ b := by
    calc ⌊x⌋ ≤ ⌊(b : ℚ)⌋ := Int.floor_le_floor h2
    _ = b := Int.floor_intCast b
  have hup : x - ⌊x⌋ ≥ 1/2 → ⌊x⌋ + 1 ≤ b := by
    intro hf
    have hlt : ((⌊x⌋ : ℤ) : ℚ) < (b : ℚ) := by
      have : ((⌊x⌋ : ℤ) : ℚ) < x := by linarith
      linarith
    exact_mod_cast Int.add_one_le_iff.mpr (by exact_mod_cast hlt)
  have hmem : roundHalfEven x = ⌊x⌋ ∨
      (roundHalfEven x = ⌊x⌋ + 1 ∧ x - ⌊x⌋ ≥ 1/2) := by
    simp only [roundHalfEven]
    split_ifs with hlt hgt heven
    · exact Or.inl rfl
    · exact Or.inr ⟨rfl, by linarith⟩
    · exact Or.inl rfl
    · exact Or.inr ⟨rfl, by linarith⟩
  rcases hmem with h | ⟨h, hf⟩
  · rw [h]
    exact ⟨by exact_mod_cast hfa, by exact_mod_cast hfb⟩
  · rw [h]
    have := hup hf
    constructor
    · exact_mod_cast le_trans hfa (by omega)
    · exact_mod_cast this

theorem roundHalfEven_intCast (z : ℤ) : roundHalfEven (z : ℚ) = z := by
  simp [roundHalfEven]

theorem length_clipVec (lower upper x : List ℚ) :
    (clipVec lower upper x).length = min (min lower.length upper.length) x.length := by
  simp [clipVec, List.length_zipWith, List.length_zip]

theorem getD_clipVec (lower upper x : List ℚ) (k : ℕ)
    (h1 : k < lower.length) (h2 : k < upper.length) (h3 : k < x.length) :
    (clipVec lower upper x).getD k 0
      = min (max (x.getD k 0) (lower.getD k 0)) (upper.getD k 0) := by
  have hzip : k < (lower.zip upper).length := by
    simp [List.length_zip]; omega
  rw [clipVec, getD_zipWith _ _ _ (0, 0) 0 0 k hzip h3]
  rw [show lower.zip upper = List.zipWith Prod.mk lower upper from rfl,
    getD_zipWith Prod.mk lower upper 0 0 (0, 0) k h1 h2]

theorem roundIntVars_good (p : FAParams)
    (hint : ∀ k ∈ p.integer_vars,
      (∃ a : ℤ, p.lower.getD k 0 = (a : ℚ)) ∧ (∃ b : ℤ, p.upper.getD k 0 = (b : ℚ)))
    (x : List ℚ) (hx : x.length = p.d)
    (hb : ∀ k, k < p.d →
      p.lower.getD k 0 ≤ x.getD k 0 ∧ x.getD k 0 ≤ p.upper.getD k 0) :
    GoodVec p (roundIntVars p.integer_vars x) := by
  refine ⟨by rw [roundIntVars, length_roundIntAux, hx], ?_⟩
  intro k hk
  rw [roundIntVars, getD_roundIntAux _ _ _ _ (by omega)]
  simp only [Nat.zero_add]
  by_cases hkiv : k ∈ p.integer_vars
  · rw [if_pos hkiv]
    obtain ⟨⟨a, ha⟩, ⟨b, hbnd⟩⟩ := hint k hkiv
    have hbd := hb k hk
    have hr := roundHalfEven_le_bounds a b (x.getD k 0)
      (by rw [← ha]; exact hbd.1) (by rw [← hbnd]; exact hbd.2)
    exact ⟨by rw [ha]; exact hr.1, by rw [hbnd]; exact hr.2,
      fun _ => ⟨roundHalfEven (x.getD k 0), rfl⟩⟩
  · rw [if_neg hkiv]
    exact ⟨(hb k hk).1, (hb k hk).2, fun h => absurd h hkiv⟩

theorem clipVec_bounds (p : FAParams)
    (hlen : p.upper.length = p.lower.length)
    (hle : ∀ k, k < p.d → p.lower.getD k 0 ≤ p.upper.getD k 0)
    (x : List ℚ) (hx : x.length = p.d) :
    (clipVec p.lower p.upper x).length = p.d ∧
    ∀ k, k < p.d →
      p.lower.getD k 0 ≤ (clipVec p.lower p.upper x).getD k 0 ∧
      (clipVec p.lower p.upper x).getD k 0 ≤ p.upper.getD k 0 := by
  have hd : p.lower.length = p.d := rfl
  constructor
  · rw [length_clipVec, hlen, hd, hx]
    omega
  · intro k hk
    rw [getD_clipVec _ _ _ k (by omega) (by rw [hlen]; exact hk) (by omega)]
    constructor
    · exact le_min (le_max_right _ _) (hle k hk)
    · exact min_le_right _ _

theorem moveFirefly_good (p : FAParams)
    (hlen : p.upper.length = p.lower.length)
    (hle : ∀ k, k < p.d → p.lower.getD k 0 ≤ p.upper.getD k 0)
    (hint : ∀ k ∈ p.integer_vars,
      (∃ a : ℤ, p.lower.getD k 0 = (a : ℚ)) ∧ (∃ b : ℤ, p.upper.getD k 0 = (b : ℚ)))
    (xi xj rs : List ℚ) (hxi : xi.length = p.d) (hxj : xj.length = p.d)
    (hrs : rs.length = p.d) (beta : ℚ) :
    GoodVec p (moveFirefly p xi xj beta rs) := by
  rw [moveFirefly]
  have hlen2 : (List.zipWith
      (fun (a : ℚ × ℚ) u => a.1 + beta * (a.2 - a.1) + p.alpha * (u - 1/2))
      (xi.zip xj) rs).length = p.d := by
    simp [List.length_zipWith, List.length_zip, hxi, hxj, hrs]
  have hc := clipVec_bounds p hlen hle _ hlen2
  exact roundIntVars_good p hint _ hc.1 hc.2

theorem drawVec_length (stream : ℕ → ℚ) (idx d : ℕ) :
    (drawVec stream idx d).length = d := by
  simp [drawVec]

theorem getD_mem {α : Type} (l : List α) (k : ℕ) (d : α) (h : k < l.length) :
    l.getD k d ∈ l := by
  rw [List.getD_eq_getElem l d h]
  exact List.getElem_mem h

theorem allGood_set (p : FAParams) (pos : List (List ℚ)) (i : ℕ) (v : List ℚ)
    (hpos : AllGood p pos) (hv : GoodVec p v) : AllGood p (pos.set i v) := by
  intro x hx
  rcases List.mem_or_eq_of_mem_set hx with h | h
  · exact hpos x h
  · rw [h]; exact hv

theorem argminAux_lt (xs : List ℚ) :
    ∀ (i bi : ℕ) (bv : ℚ) (n : ℕ), bi < n → i + xs.length ≤ n →
      argminAux xs i bi bv < n := by
  induction xs with
  | nil => intro i bi bv n hbi _; exact hbi
  | cons x xs ih =>
    intro i bi bv n hbi hlen
    simp only [argminAux]
    split
    · exact ih (i + 1) i x n (by simp at hlen; omega) (by simp at hlen ⊢; omega)
    · exact ih (i + 1) bi bv n hbi (by simp at hlen ⊢; omega)

theorem argminIdx_lt (l : List ℚ) (h : l ≠ []) : argminIdx l < l.length := by
  cases l with
  | nil => exact absurd rfl h
  | cons x xs =>
    simp only [argminIdx, List.length_cons]
    exact argminAux_lt xs 1 0 x (xs.length + 1) (by omega) (by omega)

theorem sweepPair_inv (p : FAParams)
    (hlen : p.upper.length = p.lower.length)
    (hle : ∀ k, k < p.d → p.lower.getD k 0 ≤ p.upper.getD k 0)
    (hint : ∀ k ∈ p.integer_vars,
      (∃ a : ℤ, p.lower.getD k 0 = (a : ℚ)) ∧ (∃ b : ℤ, p.upper.getD k 0 = (b : ℚ)))
    (stream : ℕ → ℚ) (intens : List ℚ) (i j : ℕ)
    (st : List (List ℚ) × ℕ)
    (hj : j < p.n_fireflies)
    (hl : st.1.length = p.n_fireflies) (hg : AllGood p st.1) :
    (sweepPair p stream intens i j st).1.length = p.n_fireflies ∧
    AllGood p (sweepPair p stream intens i j st).1 := by
  rw [sweepPair]
  split
  · by_cases hi : i < st.1.length
    · have hgi : GoodVec p (st.1.getD i []) := hg _ (getD_mem _ _ _ hi)
      have hgj : GoodVec p (st.1.getD j []) := hg _ (getD_mem _ _ _ (by omega))
      constructor
      · simp [hl]
      · exact allGood_set p _ _ _ hg
          (moveFirefly_good p hlen hle hint _ _ _ hgi.1 hgj.1
            (drawVec_length _ _ _) _)
    · constructor
      · simp only [List.set_eq_of_length_le (show st.1.length ≤ i by omega)]
        exact hl
      · simp only [List.set_eq_of_length_le (show st.1.length ≤ i by omega)]
        exact hg
  · exact ⟨hl, hg⟩

theorem sweepAll_inv (p : FAParams)
    (hlen : p.upper.length = p.lower.length)
    (hle : ∀ k, k < p.d → p.lower.getD k 0 ≤ p.upper.getD k 0)
    (hint : ∀ k ∈ p.integer_vars,
      (∃ a : ℤ, p.lower.getD k 0 = (a : ℚ)) ∧ (∃ b : ℤ, p.upper.getD k 0 = (b : ℚ)))
    (stream : ℕ → ℚ) (intens : List ℚ) (st : List (List ℚ) × ℕ)
    (hl : st.1.length = p.n_fireflies) (hg : AllGood p st.1) :
    (sweepAll p stream intens st).1.length = p.n_fireflies ∧
    AllGood p (sweepAll p stream intens st).1 := by
  rw [sweepAll]
  have hrow : ∀ (l : List ℕ) (i : ℕ) (st : List (List ℚ) × ℕ),
      (∀ j ∈ l, j < p.n_fireflies) →
      st.1.length = p.n_fireflies → AllGood p st.1 →
      ((l.foldl (fun acc2 j => sweepPair p stream intens i j acc2) st).1.length
        = p.n_fireflies ∧
       AllGood p (l.foldl (fun acc2 j => sweepPair p stream intens i j acc2) st).1) := by
    intro l
    induction l with
    | nil => intro i st _ hl hg; exact ⟨hl, hg⟩
    | cons j js ih =>
      intro i st hmem hl hg
      simp only [List.foldl_cons]
      have h1 := sweepPair_inv p hlen hle hint stream intens i j st
        (hmem j (by simp)) hl hg
      exact ih i _ (fun j2 hj2 => hmem j2 (by simp [hj2])) h1.1 h1.2
  have houter : ∀ (l : List ℕ) (st : List (List ℚ) × ℕ),
      st.1.length = p.n_fireflies → AllGood p st.1 →
      ((l.foldl (fun acc i => (List.range p.n_fireflies).foldl
          (fun acc2 j => sweepPair p stream intens i j acc2) acc) st).1.length
        = p.n_fireflies ∧
       AllGood p (l.foldl (fun acc i => (List.range p.n_fireflies).foldl
          (fun acc2 j => sweepPair p stream intens i j acc2) acc) st).1) := by
    intro l
    induction l with
    | nil => intro st hl hg; exact ⟨hl, hg⟩
    | cons i is ih =>
      intro st hl hg
      simp only [List.foldl_cons]
      have h1 := hrow (List.range p.n_fireflies) i st
        (fun j hj => List.mem_range.mp hj) hl hg
      exact ih _ h1.1 h1.2
  exact houter _ st hl hg

theorem bestWalk_inv (p : FAParams)
    (hlen : p.upper.length = p.lower.length)
    (hle : ∀ k, k < p.d → p.lower.getD k 0 ≤ p.upper.getD k 0)
    (hint : ∀ k ∈ p.integer_vars,
      (∃ a : ℤ, p.lower.getD k 0 = (a : ℚ)) ∧ (∃ b : ℤ, p.upper.getD k 0 = (b : ℚ)))
    (stream : ℕ → ℚ) (intens : List ℚ) (st : List (List ℚ) × ℕ)
    (hn : 0 < p.n_fireflies) (hin : intens.length = p.n_fireflies)
    (hl : st.1.length = p.n_fireflies) (hg : AllGood p st.1) :
    (bestWalk p stream intens st).1.length = p.n_fireflies ∧
    AllGood p (bestWalk p stream intens st).1 := by
  rw [bestWalk]
  have hbi : argminIdx intens < p.n_fireflies := by
    rw [← hin]
    exact argminIdx_lt intens (by rw [← List.length_pos]; omega)
  have hgb : GoodVec p (st.1.getD (argminIdx intens) []) :=
    hg _ (getD_mem _ _ _ (by omega))
  have hlen2 : (List.zipWith (fun a u => a + p.alpha * (u - 1/2))
      (st.1.getD (argminIdx intens) [])
      (drawVec stream st.2 p.d)).length = p.d := by
    rw [List.length_zipWith, hgb.1, drawVec_length]
    exact Nat.min_self _
  have hc := clipVec_bounds p hlen hle _ hlen2
  constructor
  · simp [hl]
  · exact allGood_set p _ _ _ hg (roundIntVars_good p hint _ hc.1 hc.2)

theorem faIteration_inv (p : FAParams) (objective : List ℚ → Option ℚ)
    (stream : ℕ → ℚ)
    (hlen : p.upper.length = p.lower.length)
    (hle : ∀ k, k < p.d → p.lower.getD k 0 ≤ p.upper.getD k 0)
    (hint : ∀ k ∈ p.integer_vars,
      (∃ a : ℤ, p.lower.getD k 0 = (a : ℚ)) ∧ (∃ b : ℤ, p.upper.getD k 0 = (b : ℚ)))
    (hn : 0 < p.n_fireflies)
    (st : FAState) (hst : StInv p st) :
    StInv p (faIteration p objective stream st) := by
  obtain ⟨hl, hg, hil, hbs⟩ := hst
  have hsw := sweepAll_inv p hlen hle hint stream st.intensities
    (st.fireflies, st.rng) hl hg
  have hbw := bestWalk_inv p hlen hle hint stream st.intensities
    (sweepAll p stream st.intensities (st.fireflies, st.rng)) hn hil hsw.1 hsw.2
  have hieq : (evalFireflies objective
      (bestWalk p stream st.intensities
        (sweepAll p stream st.intensities (st.fireflies, st.rng))).1).length
      = p.n_fireflies := by
    rw [evalFireflies, List.length_map, hbw.1]
  refine ⟨hbw.1, hbw.2, hieq, ?_⟩
  rw [faIteration]
  simp only
  split
  · have hcbi : argminIdx (evalFireflies objective
        (bestWalk p stream st.intensities
          (sweepAll p stream st.intensities (st.fireflies, st.rng))).1)
        < p.n_fireflies := by
      rw [← hieq]
      apply argminIdx_lt
      rw [← List.length_pos, hieq]
      omega
    exact hbw.2 _ (getD_mem _ _ _ (by omega))
  · exact hbs

theorem faLoop_inv (p : FAParams) (objective : List ℚ → Option ℚ)
    (stream : ℕ → ℚ)
    (hlen : p.upper.length = p.lower.length)
    (hle : ∀ k, k < p.d → p.lower.getD k 0 ≤ p.upper.getD k 0)
    (hint : ∀ k ∈ p.integer_vars,
      (∃ a : ℤ, p.lower.getD k 0 = (a : ℚ)) ∧ (∃ b : ℤ, p.upper.getD k 0 = (b : ℚ)))
    (hn : 0 < p.n_fireflies) (k : ℕ) (st : FAState) (hst : StInv p st) :
    StInv p (faLoop p objective stream k st) := by
  induction k generalizing st with
  | zero => exact hst
  | succ k ih =>
    exact ih _ (faIteration_inv p objective stream hlen hle hint hn st hst)

theorem initFireflies_inv (p : FAParams) (stream : ℕ → ℚ)
    (hlen : p.upper.length = p.lower.length)
    (hle : ∀ k, k < p.d → p.lower.getD k 0 ≤ p.upper.getD k 0)
    (hint : ∀ k ∈ p.integer_vars,
      (∃ a : ℤ, p.lower.getD k 0 = (a : ℚ)) ∧ (∃ b : ℤ, p.upper.getD k 0 = (b : ℚ)))
    (hstream : ∀ i, 0 ≤ stream i ∧ stream i ≤ 1) :
    (initFireflies p stream).1.length = p.n_fireflies ∧
    AllGood p (initFireflies p stream).1 := by
  constructor
  · simp [initFireflies]
  · intro x hx
    rw [initFireflies] at hx
    simp only [List.mem_map, List.mem_range] at hx
    obtain ⟨i, _, rfl⟩ := hx
    have hzl : (List.zipWith (fun (b : ℚ × ℚ) u => b.1 + u * (b.2 - b.1))
        (p.lower.zip p.upper) (drawVec stream (i * p.d) p.d)).length = p.d := by
      rw [List.length_zipWith, List.length_zip, hlen, drawVec_length]
      simp [FAParams.d]
    apply roundIntVars_good p hint _ hzl
    intro k hk
    rw [getD_zipWith _ _ _ (0, 0) 0 0 k
      (by rw [List.length_zip, hlen]; simp [FAParams.d]; exact hk)
      (by rw [drawVec_length]; exact hk)]
    rw [show p.lower.zip p.upper = List.zipWith Prod.mk p.lower p.upper from rfl,
      getD_zipWith Prod.mk p.lower p.upper 0 0 (0, 0) k hk (by rw [hlen]; exact hk)]
    have hdv : (drawVec stream (i * p.d) p.d).getD k 0 = stream (i * p.d + k) := by
      rw [drawVec, List.getD_eq_getElem _ _ (by simp [drawVec]; exact hk)]
      simp
    rw [hdv]
    have hu := hstream (i * p.d + k)
    have hlu := hle k hk
    constructor
    · nlinarith [hu.1, hu.2, hlu]
    · nlinarith [hu.1, hu.2, hlu]

/-- `optimize` unfolded to the loop applied to the initial state. -/
theorem optimize_unfold (p : FAParams) (objective : List ℚ → Option ℚ)
    (stream : ℕ → ℚ) :
    FireflyAlgorithm.optimize p objective stream
      = (let stF := faLoop p objective stream p.max_iterations
          { fireflies := (initFireflies p stream).1,
            intensities := evalFireflies objective (initFireflies p stream).1,
            best_solution := (initFireflies p stream).1.getD
              (argminIdx (evalFireflies objective (initFireflies p stream).1)) [],
            best_value := (evalFireflies objective (initFireflies p stream).1).getD
              (argminIdx (evalFireflies objective (initFireflies p stream).1)) 0,
            history := ⟨[], [], [], []⟩,
            rng := (initFireflies p stream).2 }
         (stF.best_solution, stF.best_value, stF.history)) := rfl

/-- C2 (amended): for every bounds list with `lower ≤ upper` whose
integer-dimension bounds are themselves integers, every objective, every
iteration count and every uniform draw stream, the best vector returned by
`FireflyAlgorithm.optimize` has an entry within `[lower[k], upper[k]]` in
every dimension `k`, and every integer-dimension entry is an exact integer.
(For fractional bounds on an integer dimension the bounds part fails: the
source clips first and rounds afterwards — see the counterexample.) -/
theorem firefly_best_within_bounds (p : FAParams)
    (objective : List ℚ → Option ℚ) (stream : ℕ → ℚ)
    (hlen : p.upper.length = p.lower.length)
    (hle : ∀ k, k < p.d → p.lower.getD k 0 ≤ p.upper.getD k 0)
    (hint : ∀ k ∈ p.integer_vars,
      (∃ a : ℤ, p.lower.getD k 0 = (a : ℚ)) ∧ (∃ b : ℤ, p.upper.getD k 0 = (b : ℚ)))
    (hstream : ∀ i, 0 ≤ stream i ∧ stream i ≤ 1)
    (hn : 0 < p.n_fireflies) :
    (FireflyAlgorithm.optimize p objective stream).1.length = p.d ∧
    ∀ k, k < p.d →
      p.lower.getD k 0 ≤ (FireflyAlgorithm.optimize p objective stream).1.getD k 0 ∧
      (FireflyAlgorithm.optimize p objective stream).1.getD k 0 ≤ p.upper.getD k 0 ∧
      (k ∈ p.integer_vars →
        ∃ z : ℤ, (FireflyAlgorithm.optimize p objective stream).1.getD k 0 = (z : ℚ)) := by
  have hini := initFireflies_inv p stream hlen hle hint hstream
  have hst0 : StInv p
      { fireflies := (initFireflies p stream).1,
        intensities := evalFireflies objective (initFireflies p stream).1,
        best_solution := (initFireflies p stream).1.getD
          (argminIdx (evalFireflies objective (initFireflies p stream).1)) [],
        best_value := (evalFireflies objective (initFireflies p stream).1).getD
          (argminIdx (evalFireflies objective (initFireflies p stream).1)) 0,
        history := ⟨[], [], [], []⟩,
        rng := (initFireflies p stream).2 } := by
    have hev : (evalFireflies objective (initFireflies p stream).1).length
        = p.n_fireflies := by
      rw [evalFireflies, List.length_map, hini.1]
    refine ⟨hini.1, hini.2, hev, ?_⟩
    have hb0 : argminIdx (evalFireflies objective (initFireflies p stream).1)
        < p.n_fireflies := by
      rw [← hev]
      apply argminIdx_lt
      rw [← List.length_pos, hev]
      omega
    exact hini.2 _ (getD_mem _ _ _ (by omega))
  have hfin := faLoop_inv p objective stream hlen hle hint hn p.max_iterations _ hst0
  have hgood : GoodVec p (FireflyAlgorithm.optimize p objective stream).1 := by
    rw [optimize_unfold]
    exact hfin.2.2.2
  exact ⟨hgood.1, hgood.2⟩

/-- C2 witness: a concrete two-firefly one-iteration run on integer bounds
`[0, 4]`. -/
theorem firefly_best_within_bounds_witness :
    (FireflyAlgorithm.optimize
      { lower := [0], upper := [4], n_fireflies := 2, max_iterations := 1,
        alpha := 1/2, beta_r2 := fun _ => 1, integer_vars := [0] }
      (fun v => some (v.getD 0 0)) (fun _ => 1/3)).1.length = 1 ∧
    (0:ℚ) ≤ (FireflyAlgorithm.optimize
      { lower := [0], upper := [4], n_fireflies := 2, max_iterations := 1,
        alpha := 1/2, beta_r2 := fun _ => 1, integer_vars := [0] }
      (fun v => some (v.getD 0 0)) (fun _ => 1/3)).1.getD 0 0 ∧
    (FireflyAlgorithm.optimize
      { lower := [0], upper := [4], n_fireflies := 2, max_iterations := 1,
        alpha := 1/2, beta_r2 := fun _ => 1, integer_vars := [0] }
      (fun v => some (v.getD 0 0)) (fun _ => 1/3)).1.getD 0 0 ≤ 4 := by
  have h := firefly_best_within_bounds
    { lower := [0], upper := [4], n_fireflies := 2, max_iterations := 1,
      alpha := 1/2, beta_r2 := fun _ => 1, integer_vars := [0] }
    (fun v => some (v.getD 0 0)) (fun _ => 1/3)
    rfl
    (by intro k hk; simp only [FAParams.d, List.length_cons, List.length_nil] at hk
        interval_cases k
        norm_num)
    (by intro k hk; simp only [List.mem_singleton] at hk; subst hk
        exact ⟨⟨0, rfl⟩, ⟨4, rfl⟩⟩)
    (fun i => by norm_num)
    (by norm_num)
  have hk0 := h.2 0 (by norm_num [FAParams.d])
  exact ⟨h.1, hk0.1, hk0.2.1⟩

/-- C2 counterexample: with the fractional bounds `[0, 3/5]` on an integer
dimension, one firefly and zero iterations, the uniform draw `9/10` puts the
initial position at `0.54`, which `np.round` turns into `1 > 3/5`: the
returned best vector violates the upper bound. -/
theorem firefly_fractional_bounds_violated :
    (FireflyAlgorithm.optimize pC2 objC2 streamC2).1 = [1] ∧
    ¬ ((FireflyAlgorithm.optimize pC2 objC2 streamC2).1.getD 0 0
        ≤ pC2.upper.getD 0 0) := by
  have h1 : (FireflyAlgorithm.optimize pC2 objC2 streamC2).1 = [1] := by
    norm_num [FireflyAlgorithm.optimize, faLoop, initFireflies, evalFireflies,
      argminIdx, argminAux, drawVec, roundIntVars, roundIntAux, roundHalfEven,
      pC2, objC2, streamC2, FAParams.d, List.range_succ]
  refine ⟨h1, ?_⟩
  rw [h1]
  norm_num [pC2]

/-- Each loop iteration appends exactly one entry to each history channel. -/
theorem faIteration_history_len (p : FAParams) (objective : List ℚ → Option ℚ)
    (stream : ℕ → ℚ) (st : FAState) :
    (faIteration p objective stream st).history.best_values.length
      = st.history.best_values.length + 1 ∧
    (faIteration p objective stream st).history.mean_values.length
      = st.history.mean_values.length + 1 ∧
    (faIteration p objective stream st).history.worst_values.length
      = st.history.worst_values.length + 1 ∧
    (faIteration p objective stream st).history.best_solutions.length
      = st.history.best_solutions.length + 1 := by
  simp [faIteration]

/-- `k` loop iterations append exactly `k` entries to each history channel. -/
theorem faLoop_history_len (p : FAParams) (objective : List ℚ → Option ℚ)
    (stream : ℕ → ℚ) (k : ℕ) (st : FAState) :
    (faLoop p objective stream k st).history.best_values.length
      = st.history.best_values.length + k ∧
    (faLoop p objective stream k st).history.mean_values.length
      = st.history.mean_values.length + k ∧
    (faLoop p objective stream k st).history.worst_values.length
      = st.history.worst_values.length + k ∧
    (faLoop p objective stream k st).history.best_solutions.length
      = st.history.best_solutions.length + k := by
  induction k generalizing st with
  | zero => simp [faLoop]
  | succ k ih =>
    have h1 := faIteration_history_len p objective stream st
    have h2 := ih (faIteration p objective stream st)
    refine ⟨?_, ?_, ?_, ?_⟩ <;> simp only [faLoop] <;> omega

/-- C8 (amended): the recorded history is append-only with exactly one
entry per loop iteration, so each of its four channels has length
`iterations` — not `iterations + 1`: no iteration-0 snapshot of the initial
population is recorded (the history starts empty and is appended to only
inside the loop). -/
theorem firefly_history_len_is_iterations (p : FAParams) (objective : List ℚ → Option ℚ)
    (stream : ℕ → ℚ) :
    (FireflyAlgorithm.optimize p objective stream).2.2.best_values.length
      = p.max_iterations ∧
    (FireflyAlgorithm.optimize p objective stream).2.2.mean_values.length
      = p.max_iterations ∧
    (FireflyAlgorithm.optimize p objective stream).2.2.worst_values.length
      = p.max_iterations ∧
    (FireflyAlgorithm.optimize p objective stream).2.2.best_solutions.length
      = p.max_iterations := by
  rw [optimize_unfold]
  have h := faLoop_history_len p objective stream p.max_iterations
    { fireflies := (initFireflies p stream).1,
      intensities := evalFireflies objective (initFireflies p stream).1,
      best_solution := (initFireflies p stream).1.getD
        (argminIdx (evalFireflies objective (initFireflies p stream).1)) [],
      best_value := (evalFireflies objective (initFireflies p stream).1).getD
        (argminIdx (evalFireflies objective (initFireflies p stream).1)) 0,
      history := ⟨[], [], [], []⟩,
      rng := (initFireflies p stream).2 }
  simpa using h

/-- C8 counterexample: a concrete one-firefly run with `iterations = 1`
records exactly one history entry, not `iterations + 1 = 2`. -/
theorem firefly_history_missing_initial_snapshot :
    (FireflyAlgorithm.optimize pC8 objC2 streamC8).2.2.best_values.length = 1 ∧
    pC8.max_iterations = 1 ∧
    (FireflyAlgorithm.optimize pC8 objC2 streamC8).2.2.best_values.length
      ≠ pC8.max_iterations + 1 := by
  refine ⟨?_, rfl, ?_⟩
  · norm_num [FireflyAlgorithm.optimize, faLoop, faIteration, sweepAll,
      sweepPair, bestWalk, initFireflies, evalFireflies, argminIdx, argminAux,
      drawVec, roundIntVars, roundIntAux, clipVec, listMaxQ,
      pC8, objC2, streamC8, FAParams.d, List.range_succ]
  · norm_num [FireflyAlgorithm.optimize, faLoop, faIteration, sweepAll,
      sweepPair, bestWalk, initFireflies, evalFireflies, argminIdx, argminAux,
      drawVec, roundIntVars, roundIntAux, clipVec, listMaxQ,
      pC8, objC2, streamC8, FAParams.d, List.range_succ]
